import Mathlib

/-!
Verification development for the `poolmanager` Go library
(github.com/hibbannn/pool-manager).

The Go sources are shallowly embedded as follows:
* `sync.Map` registries (`pools`, `poolConfig`, `metrics`, `itemMetadata`,
  `cache`) become association lists `List (String × α)` with `Load`,
  `Store` and `Delete` modelled by `alookup`, `storeA` and `deleteA`.
* `sync.Pool` free-lists become `List Nat` stacks of instance identifiers;
  `Get` pops the head and falls back to the pool's `New`/factory (which the
  manager always installs), `Put` pushes.  The order in which `sync.Pool`
  yields items is unspecified in Go; a LIFO order is one admissible
  refinement and is fixed here.
* `time.Time` / `time.Duration` values become `Int` (nanoseconds); each
  foreground operation receives the current time `now` and the string
  `time.Now().String()` used as a sharding key as explicit arguments.
* Go machine integers become `Int` (Go `int`/`int64` overflow is modelled
  with an explicit wrap at `2 ^ 64` where it matters, in the round-robin
  sharding counter), `float64` configuration factors become `ℚ`, and the
  truncating Go conversion `int(f)` becomes `ratTrunc`.
* Callback hooks and the single point where `Reset()` is invoked are
  recorded in an explicit event trace, so ordering claims ("reset before
  re-insertion") are statements about traces.
-/

/-! ### Association lists modelling `sync.Map` -/

def alookup {α : Type} : String → List (String × α) → Option α
  | _, [] => none
  | k, (k', v) :: t => if k = k' then some v else alookup k t

def storeA {α : Type} (k : String) (v : α) : List (String × α) → List (String × α)
  | [] => [(k, v)]
  | (k', v') :: t => if k' = k then (k, v) :: t else (k', v') :: storeA k v t

def deleteA {α : Type} (k : String) : List (String × α) → List (String × α)
  | [] => []
  | (k', v) :: t => if k' = k then deleteA k t else (k', v) :: deleteA k t

def countKey {α : Type} (k : String) : List (String × α) → Nat
  | [] => 0
  | (k', _) :: t => (if k' = k then 1 else 0) + countKey k t

def NodupKeys {α : Type} (l : List (String × α)) : Prop :=
  (l.map Prod.fst).Nodup

theorem alookup_storeA {α : Type} (k k' : String) (v : α) (l : List (String × α)) :
    alookup k (storeA k' v l) = if k = k' then some v else alookup k l := by
  induction l with
  | nil =>
    by_cases h : k = k' <;> simp [storeA, alookup, h]
  | cons hd t ih =>
    obtain ⟨k₀, v₀⟩ := hd
    by_cases h₀ : k₀ = k'
    · subst h₀
      by_cases h₁ : k = k₀ <;> simp [storeA, alookup, h₁]
    · simp only [storeA, if_neg h₀]
      by_cases h₁ : k = k₀
      · subst h₁
        have hne : ¬ k = k' := fun hh => h₀ hh
        simp [alookup, hne]
      · simp [alookup, h₁, ih]

theorem countKey_storeA_ne {α : Type} (k k' : String) (v : α) (l : List (String × α))
    (h : k ≠ k') : countKey k (storeA k' v l) = countKey k l := by
  have hne : ¬ k' = k := fun hh => h hh.symm
  induction l with
  | nil => simp [storeA, countKey, hne]
  | cons hd t ih =>
    obtain ⟨k₀, v₀⟩ := hd
    by_cases h₀ : k₀ = k'
    · subst h₀
      simp [storeA, countKey, hne]
    · simp [storeA, h₀, countKey, ih]

theorem mem_keys_of_countKey_pos {α : Type} (k : String) (l : List (String × α))
    (h : 0 < countKey k l) : k ∈ l.map Prod.fst := by
  induction l with
  | nil => simp [countKey] at h
  | cons hd t ih =>
    obtain ⟨k₀, v₀⟩ := hd
    by_cases h₀ : k₀ = k
    · subst h₀; simp
    · simp only [countKey, if_neg h₀, Nat.zero_add] at h
      simpa using Or.inr (ih h)

theorem countKey_le_one_of_nodup {α : Type} (k : String) (l : List (String × α))
    (h : NodupKeys l) : countKey k l ≤ 1 := by
  induction l with
  | nil => simp [countKey]
  | cons hd t ih =>
    obtain ⟨k₀, v₀⟩ := hd
    have ht : NodupKeys t := by
      simpa [NodupKeys] using (List.nodup_cons.mp h).2
    by_cases h₀ : k₀ = k
    · subst h₀
      have hk : k₀ ∉ t.map Prod.fst := (List.nodup_cons.mp h).1
      have : countKey k₀ t = 0 := by
        by_contra hne
        exact hk (mem_keys_of_countKey_pos _ _ (Nat.pos_of_ne_zero hne))
      simp [countKey, this]
    · simpa [countKey, h₀] using ih ht

theorem mem_keys_storeA {α : Type} (x k : String) (v : α) (l : List (String × α))
    (h : x ∈ (storeA k v l).map Prod.fst) : x = k ∨ x ∈ l.map Prod.fst := by
  induction l with
  | nil =>
    simp [storeA] at h
    exact Or.inl h
  | cons hd t ih =>
    obtain ⟨k₀, v₀⟩ := hd
    by_cases h₀ : k₀ = k
    · subst h₀
      simp only [storeA, eq_self_iff_true, if_true, List.map_cons, List.mem_cons] at h
      rcases h with h1 | h1
      · exact Or.inl h1
      · exact Or.inr (List.mem_cons_of_mem _ h1)
    · simp only [storeA, if_neg h₀, List.map_cons, List.mem_cons] at h
      rcases h with h1 | h1
      · exact Or.inr (by simp [h1])
      · rcases ih h1 with h2 | h2
        · exact Or.inl h2
        · exact Or.inr (List.mem_cons_of_mem _ h2)

theorem mem_keys_deleteA {α : Type} (x k : String) (l : List (String × α))
    (h : x ∈ (deleteA k l).map Prod.fst) : x ∈ l.map Prod.fst := by
  induction l with
  | nil => simp [deleteA] at h
  | cons hd t ih =>
    obtain ⟨k₀, v₀⟩ := hd
    by_cases h₀ : k₀ = k
    · simp only [deleteA, if_pos h₀] at h
      exact List.mem_cons_of_mem _ (ih h)
    · simp only [deleteA, if_neg h₀, List.map_cons, List.mem_cons] at h
      rcases h with h | h
      · simp [h]
      · exact List.mem_cons_of_mem _ (ih h)

theorem nodupKeys_storeA {α : Type} (k : String) (v : α) (l : List (String × α))
    (h : NodupKeys l) : NodupKeys (storeA k v l) := by
  induction l with
  | nil => simp [storeA, NodupKeys]
  | cons hd t ih =>
    obtain ⟨k₀, v₀⟩ := hd
    have hk : k₀ ∉ t.map Prod.fst := (List.nodup_cons.mp h).1
    have ht : NodupKeys t := (List.nodup_cons.mp h).2
    by_cases h₀ : k₀ = k
    · subst h₀
      simpa [storeA, NodupKeys] using h
    · have hmem : k₀ ∉ (storeA k v t).map Prod.fst := by
        intro hmem
        rcases mem_keys_storeA _ _ _ _ hmem with h' | h'
        · exact h₀ h'
        · exact hk h'
      have ih' := ih ht
      simpa [storeA, h₀, NodupKeys] using List.Nodup.cons hmem ih'

theorem nodupKeys_deleteA {α : Type} (k : String) (l : List (String × α))
    (h : NodupKeys l) : NodupKeys (deleteA k l) := by
  induction l with
  | nil => simp [deleteA, NodupKeys]
  | cons hd t ih =>
    obtain ⟨k₀, v₀⟩ := hd
    have hk : k₀ ∉ t.map Prod.fst := (List.nodup_cons.mp h).1
    have ht : NodupKeys t := (List.nodup_cons.mp h).2
    by_cases h₀ : k₀ = k
    · simpa [deleteA, h₀] using ih ht
    · have hmem : k₀ ∉ (deleteA k t).map Prod.fst := fun hm => hk (mem_keys_deleteA _ _ _ hm)
      have ih' := ih ht
      simpa [deleteA, h₀, NodupKeys] using List.Nodup.cons hmem ih'

/-! ### Hashing, integer wrap-around and float truncation

`hashString` (manager.go) is 32-bit FNV-1a over the UTF-8 bytes of the
string.  `wrap64` is two's-complement wrap-around of Go `int64` addition.
`ratTrunc` is the Go conversion `int(f)` for a `float64` value `f`, which
truncates toward zero; `float64` arithmetic on configuration factors is
modelled by exact rational arithmetic. -/

def hashString (s : String) : Nat :=
  (s.toUTF8.toList.map UInt8.toNat).foldl
    (fun h b => ((Nat.xor h b) * 16777619) % 4294967296) 2166136261

def wrap64 (x : Int) : Int :=
  (x + 2 ^ 63) % 2 ^ 64 - 2 ^ 63

def ratTrunc (q : ℚ) : Int :=
  if q < 0 then ⌈q⌉ else ⌊q⌋

theorem ratTrunc_of_nonneg (q : ℚ) (h : 0 ≤ q) : ratTrunc q = ⌊q⌋ := by
  simp [ratTrunc, not_lt.mpr h]

/-! ### Item metadata, metrics and configuration (metadata.go, metric.go, config.go) -/

structure PoolItemMetadata where
  poolName : String := ""
  lastUsed : Int := 0
  frequency : Int := 0
  creationTime : Int := 0
  usageDuration : Int := 0
  status : String := ""
  isPooled : Bool := false
  deriving Repr, DecidableEq

structure PoolMetrics where
  totalGets : Int := 0
  totalPuts : Int := 0
  totalEvicts : Int := 0
  currentUsage : Int := 0
  deriving Repr, DecidableEq

/-- PoolConfiguration (config.go).  `autoTuneFactor` is the Go `float64`
field modelled as an exact rational, `autoTuneDynamicFactor` the optional
dynamic factor function of the current size.  Callback hooks are always
treated as configured; their invocations are recorded as events. -/
structure PoolConfiguration where
  name : String := ""
  sizeLimit : Int := 0
  minSize : Int := 0
  maxSize : Int := 0
  initialSize : Int := 0
  autoTune : Bool := false
  autoTuneFactor : ℚ := 0
  autoTuneDynamicFactor : Option (Nat → ℚ) := none
  enableCaching : Bool := false
  cacheMaxSize : Int := 0
  shardingEnabled : Bool := false
  shardCount : Int := 0
  ttl : Int := 0
  evictionInterval : Int := 0

/-! ### Sharding strategies (shard.go) -/

structure RoundRobinSharding where
  counter : Int := 0
  deriving Repr, DecidableEq

/-- RoundRobinSharding.GetShardIndex (shard.go lines 18-26): atomically adds
3 (for pool "specialPool") or 1 to the `int64` counter — with Go
two's-complement wrap-around — and reduces the new counter with Go's
truncated `%`, whose result takes the sign of the dividend.  Returns the
index together with the updated strategy state. -/
def RoundRobinSharding.GetShardIndex (rr : RoundRobinSharding) (poolType : String)
    (shardCount : Int) (_key : String) : Int × RoundRobinSharding :=
  if poolType = "specialPool" then
    let c := wrap64 (rr.counter + 3)
    (Int.tmod c shardCount, ⟨c⟩)
  else
    let c := wrap64 (rr.counter + 1)
    (Int.tmod c shardCount, ⟨c⟩)

/-- RandomSharding.GetShardIndex (shard.go lines 40-46) returns
`rng.Intn(shardCount)`.  The library's concurrency-safe random source is
external input; the value it draws is passed in as `draw`, subject to the
documented contract of `rand.Intn`: `0 ≤ draw < shardCount`. -/
def RandomSharding.GetShardIndex (draw : Int) (_poolType : String)
    (_shardCount : Int) (_key : String) : Int :=
  draw

/-- HashSharding.GetShardIndex (shard.go lines 51-55):
`int(hashString(poolType+key) % uint32(shardCount))`.  The Go conversion
`uint32(shardCount)` is reduction mod `2^32` of the (nonnegative) count. -/
def HashSharding.GetShardIndex (poolType : String) (shardCount : Int)
    (key : String) : Int :=
  Int.ofNat (hashString (poolType ++ key) % (Int.toNat (shardCount % 2 ^ 32)))

/-! ### Eviction policies (unnamed/part_002, current variant with `Evict`) -/

structure SmartEvictionPolicy where
  ttl : Int := 0
  maxIdleTime : Int := 0
  minFrequency : Int := 0
  deriving Repr, DecidableEq

/-- SmartEvictionPolicy.ShouldEvict (unnamed/part_002 lines 159-169).
`time.Since(m.lastUsed)` is `now - m.lastUsed`.  A key whose first five
bytes are "keep-" is never evicted; otherwise the result is the OR of the
three optional sub-conditions, a zero threshold disabling each. -/
def SmartEvictionPolicy.ShouldEvict (p : SmartEvictionPolicy) (now : Int)
    (key : String) (m : PoolItemMetadata) : Bool :=
  if 5 ≤ key.length ∧ key.take 5 = "keep-" then
    false
  else
    (decide (0 < p.ttl) && decide (now - m.lastUsed > p.ttl)) ||
    (decide (0 < p.maxIdleTime) && decide (now - m.lastUsed > p.maxIdleTime)) ||
    (decide (0 < p.minFrequency) && decide (m.frequency < p.minFrequency))

structure TTLEvictionPolicy where
  ttl : Int := 0
  deriving Repr, DecidableEq

/-- TTLEvictionPolicy.ShouldEvict (unnamed/part_002 lines 200-202). -/
def TTLEvictionPolicy.ShouldEvict (p : TTLEvictionPolicy) (now : Int)
    (_key : String) (m : PoolItemMetadata) : Bool :=
  decide (now - m.lastUsed > p.ttl)

structure LRUEvictionPolicy where
  maxIdleTime : Int := 0
  deriving Repr, DecidableEq

/-- LRUEvictionPolicy.ShouldEvict (unnamed/part_002 lines 218-220). -/
def LRUEvictionPolicy.ShouldEvict (p : LRUEvictionPolicy) (now : Int)
    (_key : String) (m : PoolItemMetadata) : Bool :=
  decide (now - m.lastUsed > p.maxIdleTime)

structure LFUEvictionPolicy where
  minFrequency : Int := 0
  deriving Repr, DecidableEq

/-- LFUEvictionPolicy.ShouldEvict (unnamed/part_002 lines 232-234). -/
def LFUEvictionPolicy.ShouldEvict (p : LFUEvictionPolicy) (_now : Int)
    (_key : String) (m : PoolItemMetadata) : Bool :=
  decide (m.frequency < p.minFrequency)

/-! ### Manager state (manager.go, primary variant)

`MgrState` collects the `sync.Map` registries of `PoolManager`.  Pooled
instances are identified by `Nat` ids; `nextId` numbers the instances the
factory creates; `resetCounter` is the shared counter of a counting
poolable type whose `Reset()` increments it (spec §8's test harness).
Cache values carry the Go dynamic type: the manager only ever stores
poolable instances (`GoVal.poolable`), while `getShardSize` type-asserts
cache values against Go `int` (`GoVal.intVal`). -/

inductive GoVal where
  | poolable (id : Nat)
  | intVal (n : Int)
  deriving Repr, DecidableEq

inductive PoolStorage where
  | nonsharded (freeList : List Nat)
  | sharded (shards : List (List Nat))
  deriving Repr, DecidableEq

def ErrPoolDoesNotExist : String := "pool does not exist: "

def ErrInvalidShardedPoolName : String := "pool is not sharded as expected"

def ErrInvalidNonShardedPoolName : String := "pool is not a valid sync.Pool"

def ErrInvalidPoolConfigType : String := "invalid pool config type"

/-- Errors: `Err.poolErr` is a `PoolError` built by `NewPoolError`,
`Err.simple` a bare `errors.New`. -/
inductive Err where
  | poolErr (poolName operation message : String)
  | simple (message : String)
  deriving Repr, DecidableEq

inductive Event where
  | onCreate (i : Nat)
  | onGet
  | onPut
  | onReset (i : Nat)
  | onDestroy (i : Nat)
  | onEvict
  | reset (i : Nat)
  | poolInsert (i : Nat)
  | cacheInsert (i : Nat)
  deriving Repr, DecidableEq

structure MgrState where
  pools : List (String × PoolStorage) := []
  poolConfig : List (String × PoolConfiguration) := []
  metrics : List (String × PoolMetrics) := []
  itemMetadata : List (String × PoolItemMetadata) := []
  cache : List (String × GoVal) := []
  nextId : Nat := 0
  resetCounter : Nat := 0

def initState : MgrState := {}

/-! ### Metadata and metric updates (metadata.go, metric.go) -/

/-- safelyUpdateMetadata (manager.go lines 928-942): `LoadOrStore` a fresh
record, apply the update function, store the result back under `key`. -/
def safelyUpdateMetadata (key : String) (now : Int)
    (f : PoolItemMetadata → PoolItemMetadata)
    (md : List (String × PoolItemMetadata)) : List (String × PoolItemMetadata) :=
  let m0 := (alookup key md).getD { creationTime := now, lastUsed := now, status := "Active" }
  storeA key (f m0) md

/-- updateMetadata (manager.go lines 998-1004): keyed by the pool name. -/
def updateMetadata (poolName status : String) (now : Int)
    (md : List (String × PoolItemMetadata)) : List (String × PoolItemMetadata) :=
  safelyUpdateMetadata poolName now
    (fun m => { m with lastUsed := now, status := status, frequency := m.frequency + 1 }) md

/-- recordMetric (metric.go lines 60-79): `LoadOrStore` zero metrics, then
update per action.  Only "get", "put" and "evict" change any counter; any
other action (notably "cache_hit") leaves all counters unchanged. -/
def recordMetric (poolType action : String)
    (ms : List (String × PoolMetrics)) : List (String × PoolMetrics) :=
  let m := (alookup poolType ms).getD {}
  let mNew :=
    if action = "get" then
      { m with totalGets := m.totalGets + 1, currentUsage := m.currentUsage + 1 }
    else if action = "put" then
      { m with totalPuts := m.totalPuts + 1, currentUsage := m.currentUsage - 1 }
    else if action = "evict" then
      { m with totalEvicts := m.totalEvicts + 1 }
    else m
  storeA poolType mNew ms

/-- getCurrentUsage (metric.go lines 84-94). -/
def getCurrentUsage (poolType : String) (s : MgrState) : Int :=
  ((alookup poolType s.metrics).getD {}).currentUsage

def GetMetrics (poolType : String) (s : MgrState) : Except Err PoolMetrics :=
  match alookup poolType s.metrics with
  | some m => Except.ok m
  | none => Except.error (Err.simple ("metrics not found for pool: " ++ poolType))

/-! ### Cache layer (manager.go addToCache / getCacheSize / evictOldestCacheItem) -/

/-- getCacheSize (manager.go lines 820-829): counts cache entries whose key
equals the pool name. -/
def getCacheSize (poolName : String) (s : MgrState) : Nat :=
  countKey poolName s.cache

/-- The scan inside evictOldestCacheItem (manager.go lines 723-747): find
the metadata entry for `poolName` with the least `LastUsed` (first one wins
ties; `none` plays the role of the Go zero time). -/
def findOldestMeta (poolName : String) : List (String × PoolItemMetadata) →
    Option (String × Int) → Option (String × Int)
  | [], acc => acc
  | (k, m) :: t, acc =>
    if k = poolName then
      match acc with
      | none => findOldestMeta poolName t (some (k, m.lastUsed))
      | some (bk, bt) =>
        if m.lastUsed < bt then findOldestMeta poolName t (some (k, m.lastUsed))
        else findOldestMeta poolName t (some (bk, bt))
    else findOldestMeta poolName t acc

def evictOldestCacheItem (poolName : String) (s : MgrState) : MgrState :=
  match findOldestMeta poolName s.itemMetadata none with
  | some (k, _) =>
    if k ≠ "" then
      { s with cache := deleteA k s.cache, itemMetadata := deleteA k s.itemMetadata }
    else s
  | none => s

/-- addToCache (manager.go lines 786-815): reload the configuration; when
caching is enabled and the per-pool cache count has reached CacheMaxSize,
evict the oldest item and fire OnDestroy (with the instance being added,
as in the source); finally `cache.Store(poolName, instance)`. -/
def addToCache (poolName : String) (i : Nat) (s : MgrState) : MgrState × List Event :=
  match alookup poolName s.poolConfig with
  | none => (s, [])
  | some conf =>
    if conf.enableCaching then
      if (getCacheSize poolName s : Int) ≥ conf.cacheMaxSize then
        let s1 := evictOldestCacheItem poolName s
        ({ s1 with cache := storeA poolName (GoVal.poolable i) s1.cache },
         [Event.onDestroy i, Event.cacheInsert i])
      else
        ({ s with cache := storeA poolName (GoVal.poolable i) s.cache },
         [Event.cacheInsert i])
    else (s, [])

/-! ### Acquire / release (manager.go primary variant) -/

/-- getInstanceFromPool (manager.go lines 270-310).  The shard index is
`int(hashString(key)) % conf.ShardCount` (manager.go getShardIndex, lines
393-396) where `key` is the `time.Now().String()` argument.  `sync.Pool.Get`
pops a stored instance or, since the manager always installs the factory as
`New`, synthesizes a fresh one (so the source's `instance == nil` error
branches are unreachable).  Returns the instance, the updated storage and
the updated fresh-id counter. -/
def getInstanceFromPool (poolName : String) (storage : PoolStorage)
    (conf : PoolConfiguration) (key : String) (nextId : Nat) :
    Except Err (Nat × PoolStorage × Nat) :=
  if conf.shardingEnabled ∧ conf.shardCount > 1 then
    match storage with
    | PoolStorage.sharded shards =>
      if (shards.length : Int) ≠ conf.shardCount then
        Except.error (Err.poolErr poolName "get" "shard count mismatch with configuration")
      else
        let shardIndex := hashString key % Int.toNat conf.shardCount
        if h : shardIndex < shards.length then
          match shards.get ⟨shardIndex, h⟩ with
          | [] => Except.ok (nextId, PoolStorage.sharded shards, nextId + 1)
          | x :: rest => Except.ok (x, PoolStorage.sharded (shards.set shardIndex rest), nextId)
        else
          Except.error (Err.poolErr poolName "get" "shard index out of range")
    | PoolStorage.nonsharded _ =>
      Except.error (Err.poolErr poolName "get" ErrInvalidShardedPoolName)
  else
    match storage with
    | PoolStorage.nonsharded [] =>
      Except.ok (nextId, PoolStorage.nonsharded [], nextId + 1)
    | PoolStorage.nonsharded (x :: rest) =>
      Except.ok (x, PoolStorage.nonsharded rest, nextId)
    | PoolStorage.sharded _ =>
      Except.error (Err.poolErr poolName "get" ErrInvalidNonShardedPoolName)

/-- putInstanceToPool (manager.go lines 370-387).  In the sharded branch the
source indexes `shardedPools[shardIndex]` without a bounds check; an
out-of-range index is a Go runtime panic, modelled as an error result. -/
def putInstanceToPool (poolName : String) (storage : PoolStorage)
    (conf : PoolConfiguration) (i : Nat) (key : String) : Except Err PoolStorage :=
  if conf.shardingEnabled ∧ conf.shardCount > 1 then
    match storage with
    | PoolStorage.sharded shards =>
      let shardIndex := hashString key % Int.toNat conf.shardCount
      if h : shardIndex < shards.length then
        Except.ok (PoolStorage.sharded (shards.set shardIndex (i :: shards.get ⟨shardIndex, h⟩)))
      else
        Except.error (Err.simple "panic: index out of range")
    | PoolStorage.nonsharded _ =>
      Except.error (Err.poolErr poolName "put" ErrInvalidShardedPoolName)
  else
    match storage with
    | PoolStorage.nonsharded l => Except.ok (PoolStorage.nonsharded (i :: l))
    | PoolStorage.sharded _ =>
      Except.error (Err.poolErr poolName "put" ErrInvalidNonShardedPoolName)

/-- AcquireInstance (manager.go lines 195-263).  Cache hit: when caching is
enabled and the cache holds a poolable value under the pool's name, update
metadata, record the (counter-neutral) "cache_hit" metric, fire OnGet and
return the cached instance — without removing it from the cache.  Cache
miss: take from the pool, record "get", optionally store into the cache,
update metadata, fire OnGet. -/
def AcquireInstance (poolName : String) (now : Int) (key : String)
    (s : MgrState) : MgrState × Except Err Nat × List Event :=
  match alookup poolName s.poolConfig with
  | none => (s, Except.error (Err.poolErr poolName "config" ErrInvalidPoolConfigType), [])
  | some conf =>
    match (if conf.enableCaching then alookup poolName s.cache else none) with
    | some (GoVal.poolable i) =>
      let s1 := { s with itemMetadata := updateMetadata poolName "Active" now s.itemMetadata }
      let s2 := { s1 with metrics := recordMetric poolName "cache_hit" s1.metrics }
      (s2, Except.ok i, [Event.onGet])
    | _ =>
      match alookup poolName s.pools with
      | none => (s, Except.error (Err.simple (ErrPoolDoesNotExist ++ poolName)), [])
      | some storage =>
        match getInstanceFromPool poolName storage conf key s.nextId with
        | Except.error e => (s, Except.error e, [])
        | Except.ok (i, storage', nextId') =>
          let s1 := { s with pools := storeA poolName storage' s.pools, nextId := nextId' }
          let s2 := { s1 with metrics := recordMetric poolName "get" s1.metrics }
          let cres := if conf.enableCaching then addToCache poolName i s2 else (s2, [])
          let s4 := { cres.1 with
            itemMetadata := updateMetadata poolName "Active" now cres.1.itemMetadata }
          (s4, Except.ok i, cres.2 ++ [Event.onGet])

/-- ReleaseInstance (manager.go lines 315-363).  Nil check, metadata to
"Idle", pool and configuration lookups, then — on the success path —
`instance.Reset()` (incrementing the counting type's counter and logged as
`Event.reset`), OnReset, re-insertion into the pool, the "put" metric,
optional cache refresh, OnPut. -/
def ReleaseInstance (poolName : String) (inst : Option Nat) (now : Int)
    (key : String) (s : MgrState) : MgrState × Except Err Unit × List Event :=
  match inst with
  | none => (s, Except.error (Err.simple "cannot put nil instance into pool"), [])
  | some i =>
    let s1 := { s with itemMetadata := updateMetadata poolName "Idle" now s.itemMetadata }
    match alookup poolName s1.pools with
    | none => (s1, Except.error (Err.simple (ErrPoolDoesNotExist ++ poolName)), [])
    | some storage =>
      match alookup poolName s1.poolConfig with
      | none => (s1, Except.error (Err.poolErr poolName "config" ErrInvalidPoolConfigType), [])
      | some conf =>
        let s2 := { s1 with resetCounter := s1.resetCounter + 1 }
        match putInstanceToPool poolName storage conf i key with
        | Except.error e => (s2, Except.error e, [Event.reset i, Event.onReset i])
        | Except.ok storage' =>
          let s3 := { s2 with pools := storeA poolName storage' s2.pools }
          let s4 := { s3 with metrics := recordMetric poolName "put" s3.metrics }
          let cres := if conf.enableCaching then addToCache poolName i s4 else (s4, [])
          (cres.1, Except.ok (),
           [Event.reset i, Event.onReset i, Event.poolInsert i] ++ cres.2 ++ [Event.onPut])

/-! ### AddPool (manager.go lines 134-190) -/

/-- The pre-population loop of AddPool: create `initialSize` instances,
firing OnCreate for each; a sharded pool places each instance into the
shard drawn by the secure random source (its draws, each in
`[0, shardCount)` by the `rand.Int` contract, are the `rands` input), a
non-sharded pool just `Put`s it.  The storage passed in is the one AddPool
just built, so the source's type-assertion failure branches cannot fire and
are modelled as the identity. -/
def prepopulate (conf : PoolConfiguration) : List Nat → Nat → PoolStorage → Nat →
    PoolStorage × Nat × List Event
  | _, 0, storage, nextId => (storage, nextId, [])
  | rands, Nat.succ n, storage, nextId =>
    let i := nextId
    let storage' :=
      if conf.shardingEnabled ∧ conf.shardCount > 1 then
        match storage with
        | PoolStorage.sharded shards =>
          let idx := rands.headD 0 % Int.toNat conf.shardCount
          PoolStorage.sharded (shards.set idx (i :: shards.getD idx []))
        | st => st
      else
        match storage with
        | PoolStorage.nonsharded l => PoolStorage.nonsharded (i :: l)
        | st => st
    let rest := prepopulate conf rands.tail n storage' (nextId + 1)
    (rest.1, rest.2.1, Event.onCreate i :: rest.2.2)

/-- AddPool (manager.go lines 134-190): fail if the name is registered —
returning a PoolError whose message is built from the ErrPoolDoesNotExist
constant — else build the (sharded or plain) storage, register storage,
configuration and factory, pre-populate `initialSize` instances, and
initialize the pool's metrics to zero. -/
def AddPool (poolName : String) (conf : PoolConfiguration) (rands : List Nat)
    (s : MgrState) : MgrState × Except Err Unit × List Event :=
  if (alookup poolName s.pools).isSome then
    (s, Except.error (Err.poolErr poolName "add" (ErrPoolDoesNotExist ++ poolName)), [])
  else
    let storage0 :=
      if conf.shardingEnabled ∧ conf.shardCount > 1 then
        PoolStorage.sharded (List.replicate (Int.toNat conf.shardCount) [])
      else
        PoolStorage.nonsharded []
    let s1 := { s with pools := storeA poolName storage0 s.pools,
                       poolConfig := storeA poolName conf s.poolConfig }
    let pres := prepopulate conf rands (Int.toNat conf.initialSize) storage0 s.nextId
    let s2 := { s1 with pools := storeA poolName pres.1 s1.pools, nextId := pres.2.1 }
    let s3 := { s2 with metrics := storeA poolName {} s2.metrics }
    (s3, Except.ok (), pres.2.2)

/-! ### Pool sizes (manager.go GetPoolSize, cache.go) -/

/-- getPoolCurrentSize (manager.go lines 580-590): counts the cache entries
whose key equals the pool name. -/
def getPoolCurrentSize (poolName : String) (s : MgrState) : Nat :=
  countKey poolName s.cache

/-- GetPoolSize (manager.go lines 429-431). -/
def GetPoolSize (poolName : String) (s : MgrState) : Nat :=
  getPoolCurrentSize poolName s

/-- getNonShardedPoolSize (cache.go lines 150-159): same cache count. -/
def getNonShardedPoolSize (poolName : String) (s : MgrState) : Nat :=
  countKey poolName s.cache

/-- getShardSize (cache.go lines 136-147): counts cache entries under the
pool name whose value type-asserts to a Go `int` equal to the shard index;
the manager only ever caches poolable instances, so such entries can only
exist if something else wrote `int`s into the cache. -/
def getShardSize (poolName : String) (shardIndex : Int) (s : MgrState) : Nat :=
  (s.cache.filter
    (fun kv => decide (kv.1 = poolName) && decide (kv.2 = GoVal.intVal shardIndex))).length

/-- getCurrentPoolSize (manager.go lines 489-503): sharded pools sum
getShardSize over the shards, non-sharded pools use getNonShardedPoolSize
(the `interface{}` fallback to getCurrentUsage is unreachable for the
storage the manager builds). -/
def getCurrentPoolSize (poolName : String) (storage : PoolStorage) (s : MgrState) : Nat :=
  match storage with
  | PoolStorage.sharded shards =>
    (List.range shards.length).foldl
      (fun acc idx => acc + getShardSize poolName (Int.ofNat idx) s) 0
  | PoolStorage.nonsharded _ => getNonShardedPoolSize poolName s

/-! ### Operation sequences -/

inductive Op where
  | addPool (poolName : String) (conf : PoolConfiguration) (rands : List Nat)
  | acquire (poolName : String) (now : Int) (key : String)
  | release (poolName : String) (inst : Option Nat) (now : Int) (key : String)

instance exceptDecEq {ε α : Type} [DecidableEq ε] [DecidableEq α] :
    DecidableEq (Except ε α) := fun x y =>
  match x, y with
  | Except.ok a, Except.ok b =>
    if h : a = b then isTrue (by rw [h]) else isFalse (by intro hh; cases hh; exact h rfl)
  | Except.ok _, Except.error _ => isFalse (by intro hh; cases hh)
  | Except.error _, Except.ok _ => isFalse (by intro hh; cases hh)
  | Except.error e, Except.error f =>
    if h : e = f then isTrue (by rw [h]) else isFalse (by intro hh; cases hh; exact h rfl)

structure StepOut where
  result : Except Err (Option Nat)
  events : List Event
  deriving Repr, DecidableEq

def step : Op → MgrState → MgrState × StepOut
  | Op.addPool n conf rands, s =>
    match AddPool n conf rands s with
    | (s', r, evs) => (s', ⟨r.map (fun _ => none), evs⟩)
  | Op.acquire n now key, s =>
    match AcquireInstance n now key s with
    | (s', r, evs) => (s', ⟨r.map some, evs⟩)
  | Op.release n inst now key, s =>
    match ReleaseInstance n inst now key s with
    | (s', r, evs) => (s', ⟨r.map (fun _ => none), evs⟩)

def run : List Op → MgrState → MgrState × List StepOut
  | [], s => (s, [])
  | op :: t, s =>
    match step op s with
    | (s', out) =>
      match run t s' with
      | (s'', outs) => (s'', out :: outs)

def isOkResult {ε α : Type} : Except ε α → Bool
  | Except.ok _ => true
  | Except.error _ => false

def isReleaseOp : Op → Bool
  | Op.release .. => true
  | _ => false

def countSuccessfulReleases : List Op → List StepOut → Nat
  | [], _ => 0
  | _ :: _, [] => 0
  | op :: ops, out :: outs =>
    (if isReleaseOp op && isOkResult out.result then 1 else 0) +
      countSuccessfulReleases ops outs

/-! ### Configuration validation (builder.go) -/

/-- Validate (builder.go lines 137-157), in source order. -/
def PoolConfiguration.Validate (config : PoolConfiguration) : Option String :=
  if config.sizeLimit < 0 then
    some "SizeLimit must be non-negative"
  else if config.minSize < 0 ∨ config.maxSize < 0 then
    some "MinSize and MaxSize must be non-negative"
  else if config.maxSize < config.minSize then
    some "MaxSize cannot be less than MinSize"
  else if config.initialSize < config.minSize ∨ config.initialSize > config.maxSize then
    some "InitialSize must be between MinSize and MaxSize"
  else if config.shardingEnabled ∧ config.shardCount ≤ 1 then
    some "ShardCount must be greater than 1 if ShardingEnabled is true"
  else if config.autoTune ∧ config.autoTuneFactor ≤ 0 then
    some "AutoTuneFactor must be greater than 0"
  else none

/-- Build (builder.go lines 129-134): validate, then return the built
configuration unmodified. -/
def Build (b : PoolConfiguration) : Except String PoolConfiguration :=
  match b.Validate with
  | some e => Except.error e
  | none => Except.ok b

/-- The validation condition in the words of the claim: construction fails
exactly when `MinSize ≤ InitialSize ≤ MaxSize` does not hold, or sharding
is enabled with `ShardCount ≤ 1`, or auto-tune is enabled with
`AutoTuneFactor ≤ 0`, or a size field is negative. -/
def specConfigInvalid (c : PoolConfiguration) : Prop :=
  (¬ (c.minSize ≤ c.initialSize ∧ c.initialSize ≤ c.maxSize)) ∨
  (c.shardingEnabled ∧ c.shardCount ≤ 1) ∨
  (c.autoTune ∧ c.autoTuneFactor ≤ 0) ∨
  c.sizeLimit < 0 ∨ c.minSize < 0 ∨ c.maxSize < 0

instance (c : PoolConfiguration) : Decidable (specConfigInvalid c) := by
  unfold specConfigInvalid
  infer_instance

/-! ### Auto-tuning (log.go autoTunePoolSize, per-pool step) -/

def factorUsed (conf : PoolConfiguration) (currentSize : Nat) : ℚ :=
  match conf.autoTuneDynamicFactor with
  | some f => f currentSize
  | none => conf.autoTuneFactor

/-- The per-pool body of autoTunePoolSize (log.go lines 19-70): skip pools
without auto-tune and empty pools; multiply the current size by the static
or dynamic factor, truncate (`int(float64(currentSize) * factor)`), clamp
with the source's if-chain, and resize (returning `some target`, which also
fires OnAutoTune) only when the clamped size differs from the current one. -/
def autoTunePoolSizeStep (conf : PoolConfiguration) (currentSize : Nat) : Option Int :=
  if ¬ conf.autoTune then none
  else if currentSize = 0 then none
  else
    let factor := factorUsed conf currentSize
    let raw : Int := ratTrunc ((currentSize : ℚ) * factor)
    let newSize : Int :=
      if raw > conf.maxSize then conf.maxSize
      else if raw < conf.minSize then conf.minSize
      else raw
    if newSize ≠ (currentSize : Int) then some newSize else none

/-- The auto-tune step in the words of the claim: `target` is
`floor(current_size * factor)` clamped into `[MinSize, MaxSize]`, and
resize/OnAutoTune happen iff the clamped target differs. -/
def specAutoTuneTarget (conf : PoolConfiguration) (currentSize : Nat) : Int :=
  max conf.minSize (min conf.maxSize ⌊(currentSize : ℚ) * factorUsed conf currentSize⌋)

def specAutoTuneStep (conf : PoolConfiguration) (currentSize : Nat) : Option Int :=
  if ¬ conf.autoTune then none
  else if currentSize = 0 then none
  else if specAutoTuneTarget conf currentSize ≠ (currentSize : Int) then
    some (specAutoTuneTarget conf currentSize)
  else none

/-! ### Evictor sweep (unnamed/part_002, Evict methods) -/

/-- The loop both Evict implementations run: Range over the metadata
entries; whenever the policy says evict, delete that key from the cache
and from the metadata store (and log).  Nothing else is touched. -/
def evictRangeAux (shouldEvict : String → PoolItemMetadata → Bool) :
    List (String × PoolItemMetadata) → MgrState → MgrState
  | [], s => s
  | (k, m) :: t, s =>
    if shouldEvict k m then
      evictRangeAux shouldEvict t
        { s with cache := deleteA k s.cache, itemMetadata := deleteA k s.itemMetadata }
    else evictRangeAux shouldEvict t s

/-- SmartEvictionPolicy.Evict (unnamed/part_002 lines 131-141).  The sweep
only deletes cache/metadata entries; it records no metric and fires no
callback, hence the empty event trace. -/
def SmartEvictionPolicy.Evict (p : SmartEvictionPolicy) (now : Int)
    (_poolType : String) (s : MgrState) : MgrState × List Event :=
  (evictRangeAux (fun k m => p.ShouldEvict now k m) s.itemMetadata s, [])

/-- TTLEvictionPolicy.Evict (unnamed/part_002 lines 180-194): same sweep
with the TTL predicate. -/
def TTLEvictionPolicy.Evict (p : TTLEvictionPolicy) (now : Int)
    (_poolType : String) (s : MgrState) : MgrState × List Event :=
  (evictRangeAux (fun k m => p.ShouldEvict now k m) s.itemMetadata s, [])

def evictKeys (shouldEvict : String → PoolItemMetadata → Bool)
    (md : List (String × PoolItemMetadata)) : List String :=
  (md.filter (fun km => shouldEvict km.1 km.2)).map Prod.fst

/-! ### Spec-side predicate for the smart eviction claim -/

/-- The composite predicate in the words of claim C4: the OR of the enabled
sub-conditions (TTL, max idle time, minimum frequency), a zero threshold
disabling each, depending only on the thresholds, the clock and the
metadata. -/
def specSmartOr (p : SmartEvictionPolicy) (now : Int) (m : PoolItemMetadata) : Bool :=
  decide ((0 < p.ttl ∧ now - m.lastUsed > p.ttl) ∨
          (0 < p.maxIdleTime ∧ now - m.lastUsed > p.maxIdleTime) ∨
          (0 < p.minFrequency ∧ m.frequency < p.minFrequency))

/-- Claim C4, counterexample: for key "keep-a" with an expired TTL the
composite policy returns false although the TTL sub-condition holds, so
ShouldEvict is not the pure OR of the enabled sub-conditions — it also
depends on the key. -/
theorem smartEviction_keep_key_counterexample :
    SmartEvictionPolicy.ShouldEvict { ttl := 100 } 1000 "keep-a" {} = false ∧
    specSmartOr { ttl := 100 } 1000 {} = true ∧
    SmartEvictionPolicy.ShouldEvict { ttl := 100 } 1000 "keep-a" {} ≠
      specSmartOr { ttl := 100 } 1000 {} := by
  refine ⟨by decide, by decide, by decide⟩

/-- Claim C4, amended: ShouldEvict equals the OR of the enabled
sub-conditions except that any key whose first five bytes are "keep-" is
never evicted. -/
theorem smartEviction_or_except_keep (p : SmartEvictionPolicy) (now : Int)
    (key : String) (m : PoolItemMetadata) :
    p.ShouldEvict now key m =
      ((!(decide (5 ≤ key.length ∧ key.take 5 = "keep-"))) && specSmartOr p now m) := by
  unfold SmartEvictionPolicy.ShouldEvict specSmartOr
  by_cases h : 5 ≤ key.length ∧ key.take 5 = "keep-" <;>
    simp [h, Bool.or_assoc]

/-- Claim C9: Build succeeds — returning the configuration unmodified —
exactly when none of the claimed invariant violations is present:
`MinSize ≤ InitialSize ≤ MaxSize` holds, sharding is not enabled with
`ShardCount ≤ 1`, auto-tune is not enabled with `AutoTuneFactor ≤ 0`, and
no size field is negative. -/
theorem build_ok_iff_valid (c : PoolConfiguration) :
    Build c = Except.ok c ↔ ¬ specConfigInvalid c := by
  unfold Build PoolConfiguration.Validate specConfigInvalid
  split_ifs with h1 h2 h3 h4 h5 h6
  · exact iff_of_false (by simp) (fun hn => hn (Or.inr (Or.inr (Or.inr (Or.inl h1)))))
  · refine iff_of_false (by simp) (fun hn => hn ?_)
    rcases h2 with h2 | h2
    · exact Or.inr (Or.inr (Or.inr (Or.inr (Or.inl h2))))
    · exact Or.inr (Or.inr (Or.inr (Or.inr (Or.inr h2))))
  · refine iff_of_false (by simp) (fun hn => hn ?_)
    refine Or.inl (fun hc => ?_)
    omega
  · refine iff_of_false (by simp) (fun hn => hn ?_)
    refine Or.inl (fun hc => ?_)
    omega
  · exact iff_of_false (by simp) (fun hn => hn (Or.inr (Or.inl h5)))
  · exact iff_of_false (by simp) (fun hn => hn (Or.inr (Or.inr (Or.inl h6))))
  · refine iff_of_true rfl ?_
    rintro (h | h | h | h | h | h)
    · exact h ⟨by omega, by omega⟩
    · exact h5 h
    · exact h6 h
    · exact h1 h
    · exact h2 (Or.inl h)
    · exact h2 (Or.inr h)

/-- The clamp expressed by the source's if-chain agrees with clamping into
`[mn, mx]` whenever `mn ≤ mx`. -/
theorem clampIf_eq_max_min (raw mn mx : Int) (h : mn ≤ mx) :
    (if raw > mx then mx else if raw < mn then mn else raw) = max mn (min mx raw) := by
  rcases le_total raw mx with hx | hx <;> rcases le_total raw mn with hn | hn <;>
    simp [max_def, min_def] <;> omega

/-- Claim C6: for an auto-tune-enabled pool with a coherent size window and
a nonnegative factor at the current size, one auto-tuner step behaves as
the claim states: a zero current size is a no-op; otherwise the target is
`floor(current_size * factor)` (static or dynamic factor) clamped into
`[MinSize, MaxSize]`, and resize/OnAutoTune fire iff the clamped target
differs from the current size. -/
theorem autoTuneStep_meets_spec (conf : PoolConfiguration) (currentSize : Nat)
    (hmm : conf.minSize ≤ conf.maxSize)
    (hf : 0 ≤ factorUsed conf currentSize) :
    autoTunePoolSizeStep conf currentSize = specAutoTuneStep conf currentSize := by
  unfold autoTunePoolSizeStep specAutoTuneStep specAutoTuneTarget
  by_cases hAT : conf.autoTune
  · by_cases h0 : currentSize = 0
    · simp [hAT, h0]
    · have hprod : (0:ℚ) ≤ (currentSize : ℚ) * factorUsed conf currentSize :=
        mul_nonneg (by positivity) hf
      simp only [hAT, not_true_eq_false, if_false, h0, if_neg h0,
        ratTrunc_of_nonneg _ hprod,
        clampIf_eq_max_min _ _ _ hmm]
  · simp [hAT]

def confAutoTuneEx : PoolConfiguration :=
  { autoTune := true, minSize := 1, maxSize := 10, autoTuneFactor := 2 }

/-- Witness for the auto-tune theorem at the claim's own example:
MinSize 1, MaxSize 10, factor 2.0; current size 3 resizes to 6 and current
size 8 resizes to the clamped 10. -/
theorem autoTuneStep_meets_spec_witness :
    autoTunePoolSizeStep confAutoTuneEx 3 = specAutoTuneStep confAutoTuneEx 3 ∧
    autoTunePoolSizeStep confAutoTuneEx 3 = some 6 ∧
    autoTunePoolSizeStep confAutoTuneEx 8 = some 10 := by
  refine ⟨autoTuneStep_meets_spec confAutoTuneEx 3 (by norm_num [confAutoTuneEx])
      (by norm_num [factorUsed, confAutoTuneEx]), ?_, ?_⟩
  · simp only [autoTunePoolSizeStep, factorUsed, confAutoTuneEx, ratTrunc]
    norm_num
  · simp only [autoTunePoolSizeStep, factorUsed, confAutoTuneEx, ratTrunc]
    norm_num

/-! ### Claim C8: sharding index ranges -/

/-- The round-robin counter after `n` calls for a non-"specialPool" pool,
starting from a fresh strategy: each call adds 1 with `int64` wrap-around. -/
def rrCounterAfter : Nat → Int
  | 0 => 0
  | n + 1 => wrap64 (rrCounterAfter n + 1)

theorem wrap64_add_one (x : Int) : wrap64 (wrap64 x + 1) = wrap64 (x + 1) := by
  unfold wrap64
  omega

theorem rrCounterAfter_eq (n : Nat) : rrCounterAfter n = wrap64 n := by
  induction n with
  | zero => decide
  | succ m ih =>
    show wrap64 (rrCounterAfter m + 1) = wrap64 (m + 1)
    rw [ih, wrap64_add_one]

/-- Claim C8, counterexample: the round-robin counter value -3 is reached
(after 2^64 - 3 calls the wrapped int64 counter is -3), and the next call
with shard count 3 returns index -2, outside [0, 3) — Go's `%` takes the
sign of the dividend. -/
theorem roundRobin_negative_index_counterexample :
    rrCounterAfter (2 ^ 64 - 3) = -3 ∧
    (RoundRobinSharding.GetShardIndex ⟨-3⟩ "p" 3 "k").1 = -2 ∧
    ¬ (0 ≤ (RoundRobinSharding.GetShardIndex ⟨-3⟩ "p" 3 "k").1 ∧
       (RoundRobinSharding.GetShardIndex ⟨-3⟩ "p" 3 "k").1 < 3) := by
  refine ⟨?_, by decide, by decide⟩
  rw [rrCounterAfter_eq]
  decide

/-- Claim C8, amended: the hash strategy always returns an index in
`[0, shard_count)` for `1 ≤ shard_count < 2^32`, the random strategy
returns its draw, in range by the `rand.Intn` contract, and the
round-robin strategy returns an index in `[0, shard_count)` whenever its
incremented wrapped counter is still nonnegative (when the int64 counter
wraps to a negative value it returns a negative index instead). -/
theorem shardIndex_in_range :
    (∀ (rr : RoundRobinSharding) (poolType key : String) (shardCount : Int),
        1 ≤ shardCount →
        0 ≤ ((rr.GetShardIndex poolType shardCount key).2).counter →
        0 ≤ (rr.GetShardIndex poolType shardCount key).1 ∧
          (rr.GetShardIndex poolType shardCount key).1 < shardCount) ∧
    (∀ (draw : Int) (poolType key : String) (shardCount : Int),
        0 ≤ draw → draw < shardCount →
        0 ≤ RandomSharding.GetShardIndex draw poolType shardCount key ∧
          RandomSharding.GetShardIndex draw poolType shardCount key < shardCount) ∧
    (∀ (poolType key : String) (shardCount : Int),
        1 ≤ shardCount → shardCount < 2 ^ 32 →
        0 ≤ HashSharding.GetShardIndex poolType shardCount key ∧
          HashSharding.GetShardIndex poolType shardCount key < shardCount) := by
  refine ⟨?_, ?_, ?_⟩
  · intro rr poolType key shardCount h1 hc
    unfold RoundRobinSharding.GetShardIndex at hc ⊢
    by_cases hsp : poolType = "specialPool" <;> simp only [hsp, if_true, if_false, if_pos, if_neg, not_false_iff] at hc ⊢ <;>
      exact ⟨Int.tmod_nonneg _ hc, Int.tmod_lt_of_pos _ (by omega)⟩
  · intro draw poolType key shardCount h0 h1
    exact ⟨h0, h1⟩
  · intro poolType key shardCount h1 h2
    unfold HashSharding.GetShardIndex
    have hsc : shardCount % 2 ^ 32 = shardCount := by omega
    rw [hsc]
    constructor
    · exact Int.ofNat_nonneg _
    · have hpos : 0 < Int.toNat shardCount := by omega
      have hlt : hashString (poolType ++ key) % Int.toNat shardCount < Int.toNat shardCount :=
        Nat.mod_lt _ hpos
      have h3 : Int.ofNat (hashString (poolType ++ key) % Int.toNat shardCount) <
          Int.ofNat (Int.toNat shardCount) := Int.ofNat_lt.mpr hlt
      have h4 : Int.ofNat (Int.toNat shardCount) = shardCount := by
        simpa using Int.toNat_of_nonneg (show (0:Int) ≤ shardCount by omega)
      exact h4 ▸ h3

/-- Witness for the amended sharding theorem at concrete inputs: a fresh
round-robin strategy, a draw of 2 and the hash strategy, all with shard
count 3. -/
theorem shardIndex_in_range_witness :
    (0 ≤ (RoundRobinSharding.GetShardIndex ⟨0⟩ "p" 3 "k").1 ∧
      (RoundRobinSharding.GetShardIndex ⟨0⟩ "p" 3 "k").1 < 3) ∧
    (0 ≤ RandomSharding.GetShardIndex 2 "p" 3 "k" ∧
      RandomSharding.GetShardIndex 2 "p" 3 "k" < 3) ∧
    (0 ≤ HashSharding.GetShardIndex "p" 3 "k" ∧
      HashSharding.GetShardIndex "p" 3 "k" < 3) :=
  ⟨shardIndex_in_range.1 ⟨0⟩ "p" "k" 3 (by decide) (by decide),
   shardIndex_in_range.2.1 2 "p" "k" 3 (by decide) (by decide),
   shardIndex_in_range.2.2 "p" "k" 3 (by decide) (by decide)⟩

/-! ### Claim C5: what one evictor sweep does -/

instance {α : Type} (l : List (String × α)) : Decidable (NodupKeys l) := by
  unfold NodupKeys
  infer_instance

theorem filter_deleteA {α : Type} (k : String) (eks : List String)
    (c : List (String × α)) :
    (deleteA k c).filter (fun kv => decide (kv.1 ∉ eks)) =
      c.filter (fun kv => decide (kv.1 ∉ k :: eks)) := by
  induction c with
  | nil => simp [deleteA]
  | cons hd t ih =>
    obtain ⟨k0, v0⟩ := hd
    by_cases h0 : k0 = k
    · subst h0
      rw [show deleteA k0 ((k0, v0) :: t) = deleteA k0 t from by simp [deleteA]]
      rw [ih, List.filter_cons]
      simp
    · rw [show deleteA k ((k0, v0) :: t) = (k0, v0) :: deleteA k t from by simp [deleteA, h0]]
      rw [List.filter_cons, List.filter_cons]
      by_cases hmem : k0 ∈ eks
      · simp only [List.mem_cons]
        rw [if_neg (by simp [hmem]), if_neg (by simp [hmem])]
        simpa using ih
      · simp only [List.mem_cons]
        rw [if_pos (by simp [hmem]), if_pos (by simp [hmem, h0])]
        simpa using ih

theorem evictRangeAux_spec (pred : String → PoolItemMetadata → Bool)
    (l : List (String × PoolItemMetadata)) (s : MgrState) :
    (evictRangeAux pred l s).pools = s.pools ∧
    (evictRangeAux pred l s).poolConfig = s.poolConfig ∧
    (evictRangeAux pred l s).metrics = s.metrics ∧
    (evictRangeAux pred l s).nextId = s.nextId ∧
    (evictRangeAux pred l s).resetCounter = s.resetCounter ∧
    (evictRangeAux pred l s).cache =
      s.cache.filter (fun kv => decide (kv.1 ∉ evictKeys pred l)) ∧
    (evictRangeAux pred l s).itemMetadata =
      s.itemMetadata.filter (fun km => decide (km.1 ∉ evictKeys pred l)) := by
  induction l generalizing s with
  | nil =>
    simp [evictRangeAux, evictKeys]
  | cons hd t ih =>
    obtain ⟨k, m⟩ := hd
    by_cases hp : pred k m
    · have ih' := ih { s with cache := deleteA k s.cache,
                              itemMetadata := deleteA k s.itemMetadata }
      have hek : evictKeys pred ((k, m) :: t) = k :: evictKeys pred t := by
        simp [evictKeys, List.filter_cons, hp]
      refine ⟨?_, ?_, ?_, ?_, ?_, ?_, ?_⟩ <;>
        simp only [evictRangeAux, hp, if_true, hek] <;>
        first
        | exact ih'.1
        | exact ih'.2.1
        | exact ih'.2.2.1
        | exact ih'.2.2.2.1
        | exact ih'.2.2.2.2.1
        | (rw [show (evictRangeAux pred t { s with cache := deleteA k s.cache, itemMetadata := deleteA k s.itemMetadata }).cache = _ from ih'.2.2.2.2.2.1]
           exact filter_deleteA k (evictKeys pred t) s.cache)
        | (rw [show (evictRangeAux pred t { s with cache := deleteA k s.cache, itemMetadata := deleteA k s.itemMetadata }).itemMetadata = _ from ih'.2.2.2.2.2.2]
           exact filter_deleteA k (evictKeys pred t) s.itemMetadata)
    · have ih' := ih s
      have hek : evictKeys pred ((k, m) :: t) = evictKeys pred t := by
        simp [evictKeys, List.filter_cons, hp]
      simpa [evictRangeAux, hp, hek] using ih'

theorem eq_of_mem_of_nodupKeys {α : Type} (l : List (String × α)) (h : NodupKeys l)
    (a b : String × α) (ha : a ∈ l) (hb : b ∈ l) (hk : a.1 = b.1) : a = b := by
  induction l with
  | nil => cases ha
  | cons hd t ih =>
    have hknot : hd.1 ∉ t.map Prod.fst := by
      have := (List.nodup_cons.mp h).1
      simpa [NodupKeys] using this
    have ht : NodupKeys t := (List.nodup_cons.mp h).2
    rcases List.mem_cons.mp ha with ha1 | ha1 <;> rcases List.mem_cons.mp hb with hb1 | hb1
    · rw [ha1, hb1]
    · exfalso
      apply hknot
      have hfst : hd.1 = b.1 := by rw [← ha1]; exact hk
      rw [hfst]
      exact List.mem_map_of_mem Prod.fst hb1
    · exfalso
      apply hknot
      have hfst : hd.1 = a.1 := by rw [← hb1]; exact hk.symm
      rw [hfst]
      exact List.mem_map_of_mem Prod.fst ha1
    · exact ih ht ha1 hb1

theorem mem_evictKeys_iff_of_nodup (pred : String → PoolItemMetadata → Bool)
    (l : List (String × PoolItemMetadata)) (h : NodupKeys l)
    (a : String × PoolItemMetadata) (ha : a ∈ l) :
    a.1 ∈ evictKeys pred l ↔ pred a.1 a.2 = true := by
  constructor
  · intro hmem
    rcases List.mem_map.mp hmem with ⟨b, hb, hbk⟩
    have hbl : b ∈ l := (List.mem_filter.mp hb).1
    have hbp : pred b.1 b.2 = true := (List.mem_filter.mp hb).2
    have : a = b := eq_of_mem_of_nodupKeys l h a b ha hbl hbk.symm
    rw [this]
    exact hbp
  · intro hp
    exact List.mem_map.mpr ⟨a, List.mem_filter.mpr ⟨ha, hp⟩, rfl⟩

/-- The state used in the eviction and cache-count examples: pool "p" with
two free instances, one stale metadata entry and one cached instance. -/
def evictDemoState : MgrState :=
  { pools := [("p", PoolStorage.nonsharded [1, 2])],
    metrics := [("p", { totalGets := 3, totalPuts := 2, totalEvicts := 0, currentUsage := 1 })],
    itemMetadata := [("p", { lastUsed := 0 })],
    cache := [("p", GoVal.poolable 7)] }

/-- Claim C5, counterexample: one TTL sweep (ttl 5 at time 100) over a
state whose single metadata entry is stale does delete the entry from both
the metadata store and the cache, but the pool's TotalEvicts metric stays 0
and no on_evict event fires — against the claimed metric increment and
callback invocation per evicted entry. -/
theorem evictSweep_no_metric_counterexample :
    TTLEvictionPolicy.ShouldEvict ⟨5⟩ 100 "p" { lastUsed := 0 } = true ∧
    (TTLEvictionPolicy.Evict ⟨5⟩ 100 "p" evictDemoState).1.itemMetadata = [] ∧
    (TTLEvictionPolicy.Evict ⟨5⟩ 100 "p" evictDemoState).1.cache = [] ∧
    ¬ (((alookup "p" (TTLEvictionPolicy.Evict ⟨5⟩ 100 "p" evictDemoState).1.metrics).getD {}).totalEvicts
         = ((alookup "p" evictDemoState.metrics).getD {}).totalEvicts + 1 ∧
       (TTLEvictionPolicy.Evict ⟨5⟩ 100 "p" evictDemoState).2.count Event.onEvict = 1) := by
  refine ⟨by decide, by decide, by decide, by decide⟩

/-- Claim C5, amended: one evictor sweep removes exactly the metadata
entries the active policy's ShouldEvict flags, removes the same keys from
the cache, and touches nothing else — the pools map (hence every shard
free-list), the metrics (in particular TotalEvicts) and all unflagged
entries are unchanged — and both Evict implementations are this sweep with
an empty event trace, so no on_evict callback fires. -/
theorem evictSweep_deletes_exactly_flagged (pred : String → PoolItemMetadata → Bool)
    (s : MgrState) (h : NodupKeys s.itemMetadata) :
    (evictRangeAux pred s.itemMetadata s).itemMetadata =
        s.itemMetadata.filter (fun km => !(pred km.1 km.2)) ∧
    (evictRangeAux pred s.itemMetadata s).cache =
        s.cache.filter (fun kv => decide (kv.1 ∉ evictKeys pred s.itemMetadata)) ∧
    (evictRangeAux pred s.itemMetadata s).pools = s.pools ∧
    (evictRangeAux pred s.itemMetadata s).metrics = s.metrics ∧
    (∀ (p : TTLEvictionPolicy) (now : Int) (poolType : String),
        p.Evict now poolType s =
          (evictRangeAux (fun k m => p.ShouldEvict now k m) s.itemMetadata s, [])) ∧
    (∀ (p : SmartEvictionPolicy) (now : Int) (poolType : String),
        p.Evict now poolType s =
          (evictRangeAux (fun k m => p.ShouldEvict now k m) s.itemMetadata s, [])) := by
  have hspec := evictRangeAux_spec pred s.itemMetadata s
  refine ⟨?_, hspec.2.2.2.2.2.1, hspec.1, hspec.2.2.1, fun _ _ _ => rfl, fun _ _ _ => rfl⟩
  rw [hspec.2.2.2.2.2.2]
  apply List.filter_congr
  intro a ha
  by_cases hp : pred a.1 a.2 = true
  · simp [hp, (mem_evictKeys_iff_of_nodup pred s.itemMetadata h a ha).mpr hp]
  · have hnot : a.1 ∉ evictKeys pred s.itemMetadata := fun hmem =>
      hp ((mem_evictKeys_iff_of_nodup pred s.itemMetadata h a ha).mp hmem)
    simp [hnot, Bool.not_eq_true _ ▸ hp]

/-- Witness for the eviction-sweep theorem at the demo state. -/
theorem evictSweep_deletes_exactly_flagged_witness :
    (evictRangeAux (fun k m => TTLEvictionPolicy.ShouldEvict ⟨5⟩ 100 k m)
        evictDemoState.itemMetadata evictDemoState).itemMetadata =
      evictDemoState.itemMetadata.filter
        (fun km => !(TTLEvictionPolicy.ShouldEvict ⟨5⟩ 100 km.1 km.2)) ∧
    (evictRangeAux (fun k m => TTLEvictionPolicy.ShouldEvict ⟨5⟩ 100 k m)
        evictDemoState.itemMetadata evictDemoState).pools = evictDemoState.pools := by
  have h := evictSweep_deletes_exactly_flagged
    (fun k m => TTLEvictionPolicy.ShouldEvict ⟨5⟩ 100 k m) evictDemoState (by decide)
  exact ⟨h.1, h.2.2.1⟩

/-! ### Claims C1, C2, C7: concrete runs of the manager -/

/-- The configuration of the caching scenarios: caching enabled with room
for five cache entries, one pre-populated instance, no sharding. -/
def cachingConf : PoolConfiguration :=
  { enableCaching := true, cacheMaxSize := 5, initialSize := 1 }

def acquireTwiceOps : List Op :=
  [Op.addPool "p" cachingConf [], Op.acquire "p" 0 "k", Op.acquire "p" 1 "k"]

/-- Claim C1, failing run: after AddPool with one instance, two successive
AcquireInstance calls with no intervening release both return instance 0 —
the first acquire stores the instance it hands out into the cache, the
second is a cache hit that returns the very same instance and leaves it in
the cache.  Exclusive ownership fails on the cache-hit path. -/
theorem acquire_twice_returns_same_instance :
    (run acquireTwiceOps initState).2.map (fun o => o.result) =
      [Except.ok none, Except.ok (some 0), Except.ok (some 0)] ∧
    alookup "p" (run acquireTwiceOps initState).1.cache = some (GoVal.poolable 0) := by
  exact ⟨by decide, by decide⟩

def cacheHitReleaseOps : List Op :=
  acquireTwiceOps ++ [Op.release "p" (some 0) 2 "k", Op.release "p" (some 0) 3 "k"]

/-- Claim C2, failing run: acquire (pool miss, action "get"), acquire
(cache hit, action "cache_hit" — which recordMetric ignores), then the two
received instances are released (two "put"s).  All five operations
succeed, yet the final metrics are TotalGets 1, TotalPuts 2,
CurrentUsage -1: the usage metric has gone negative (it still equals
TotalGets - TotalPuts). -/
theorem currentUsage_goes_negative :
    (run cacheHitReleaseOps initState).2.map (fun o => o.result) =
      [Except.ok none, Except.ok (some 0), Except.ok (some 0),
       Except.ok none, Except.ok none] ∧
    alookup "p" (run cacheHitReleaseOps initState).1.metrics =
      some { totalGets := 1, totalPuts := 2, totalEvicts := 0, currentUsage := -1 } ∧
    getCurrentUsage "p" (run cacheHitReleaseOps initState).1 < 0 := by
  exact ⟨by decide, by decide, by decide⟩

def onePoolState : MgrState := (step (Op.addPool "p" cachingConf []) initState).1

/-- Claim C7, evaluated at the failing input: the first AddPool succeeds;
the duplicate AddPool for the same name fails and leaves the manager state
(pools, configuration, factory, metrics — the whole state) unchanged, but
the error it returns is a PoolError for operation "add" whose message is
built from the ErrPoolDoesNotExist constant, i.e. "pool does not exist: p"
— not a pool-already-exists error. -/
theorem addPool_duplicate_wrong_error_state_unchanged :
    (step (Op.addPool "p" cachingConf []) initState).2.result = Except.ok none ∧
    (AddPool "p" cachingConf [] onePoolState).2.1 =
      Except.error (Err.poolErr "p" "add" "pool does not exist: p") ∧
    (AddPool "p" cachingConf [] onePoolState).1 = onePoolState ∧
    (AddPool "p" cachingConf [] onePoolState).2.2 = [] := by
  refine ⟨by decide, by decide, ?_, by decide⟩
  rfl

/-! ### Claims C3, C10: invariants of reachable manager states -/

/-- The storage of a pool matches its configuration: AddPool builds a
sharded storage with exactly `shardCount` shards when sharding is on, a
plain free-list otherwise. -/
def WFStorage (conf : PoolConfiguration) (st : PoolStorage) : Prop :=
  if conf.shardingEnabled ∧ conf.shardCount > 1 then
    ∃ shards, st = PoolStorage.sharded shards ∧ shards.length = Int.toNat conf.shardCount
  else ∃ l, st = PoolStorage.nonsharded l

def WFmaps (pools : List (String × PoolStorage))
    (configs : List (String × PoolConfiguration)) : Prop :=
  ∀ name st conf, alookup name pools = some st →
    alookup name configs = some conf → WFStorage conf st

def WF (s : MgrState) : Prop := WFmaps s.pools s.poolConfig

theorem WF_initState : WF initState := by
  intro name st conf h1 _
  simp [initState, alookup] at h1

theorem WFmaps_store (P : List (String × PoolStorage))
    (C : List (String × PoolConfiguration)) (hwf : WFmaps P C)
    (name : String) (st' : PoolStorage) (conf : PoolConfiguration)
    (hconf : alookup name C = some conf) (hst : WFStorage conf st') :
    WFmaps (storeA name st' P) C := by
  intro n st c h1 h2
  rw [alookup_storeA] at h1
  by_cases hn : n = name
  · rw [if_pos hn] at h1
    cases h1
    rw [hn] at h2
    rw [hconf] at h2
    cases h2
    exact hst
  · rw [if_neg hn] at h1
    exact hwf n st c h1 h2

theorem WFmaps_store_both (P : List (String × PoolStorage))
    (C : List (String × PoolConfiguration)) (hwf : WFmaps P C)
    (name : String) (st' : PoolStorage) (conf : PoolConfiguration)
    (hst : WFStorage conf st') :
    WFmaps (storeA name st' P) (storeA name conf C) := by
  intro n st c h1 h2
  rw [alookup_storeA] at h1 h2
  by_cases hn : n = name
  · rw [if_pos hn] at h1 h2
    cases h1
    cases h2
    exact hst
  · rw [if_neg hn] at h1 h2
    exact hwf n st c h1 h2

theorem prepopulate_shape (conf : PoolConfiguration) (rands : List Nat) (n : Nat)
    (st : PoolStorage) (nid : Nat) (hst : WFStorage conf st) :
    WFStorage conf (prepopulate conf rands n st nid).1 := by
  induction n generalizing rands st nid with
  | zero => exact hst
  | succ m ih =>
    unfold prepopulate
    by_cases hc : conf.shardingEnabled ∧ conf.shardCount > 1
    · unfold WFStorage at hst
      rw [if_pos hc] at hst
      obtain ⟨shards, hsh, hlen⟩ := hst
      subst hsh
      simp only [if_pos hc]
      apply ih
      unfold WFStorage
      rw [if_pos hc]
      exact ⟨_, rfl, by simpa using hlen⟩
    · unfold WFStorage at hst
      rw [if_neg hc] at hst
      obtain ⟨l, hl⟩ := hst
      subst hl
      simp only [if_neg hc]
      apply ih
      unfold WFStorage
      rw [if_neg hc]
      exact ⟨_, rfl⟩

theorem getInstanceFromPool_shape (poolName : String) (st : PoolStorage)
    (conf : PoolConfiguration) (key : String) (nid : Nat)
    (i : Nat) (st' : PoolStorage) (nid' : Nat)
    (h : getInstanceFromPool poolName st conf key nid = Except.ok (i, st', nid'))
    (hst : WFStorage conf st) : WFStorage conf st' := by
  unfold getInstanceFromPool at h
  unfold WFStorage at hst ⊢
  split at h
  · rename_i hc
    rw [if_pos hc] at hst ⊢
    split at h
    · rename_i shards
      split at h
      · cases h
      · dsimp only at h
        split at h
        · rename_i hb
          split at h
          · cases h
            exact hst
          · cases h
            obtain ⟨sh0, hsh0, hlen0⟩ := hst
            cases hsh0
            exact ⟨_, rfl, by simpa using hlen0⟩
        · cases h
    · cases h
  · rename_i hc
    rw [if_neg hc] at hst ⊢
    split at h
    · cases h
      exact ⟨_, rfl⟩
    · cases h
      exact ⟨_, rfl⟩
    · cases h

theorem putInstanceToPool_shape (poolName : String) (st : PoolStorage)
    (conf : PoolConfiguration) (i : Nat) (key : String) (st' : PoolStorage)
    (h : putInstanceToPool poolName st conf i key = Except.ok st')
    (hst : WFStorage conf st) : WFStorage conf st' := by
  unfold putInstanceToPool at h
  unfold WFStorage at hst ⊢
  split at h
  · rename_i hc
    rw [if_pos hc] at hst ⊢
    split at h
    · dsimp only at h
      split at h
      · cases h
        obtain ⟨sh0, hsh0, hlen0⟩ := hst
        cases hsh0
        exact ⟨_, rfl, by simpa using hlen0⟩
      · cases h
    · cases h
  · rename_i hc
    rw [if_neg hc] at hst ⊢
    split at h
    · cases h
      exact ⟨_, rfl⟩
    · cases h

theorem putInstanceToPool_ok (poolName : String) (st : PoolStorage)
    (conf : PoolConfiguration) (i : Nat) (key : String)
    (hst : WFStorage conf st) :
    ∃ st', putInstanceToPool poolName st conf i key = Except.ok st' := by
  unfold putInstanceToPool
  unfold WFStorage at hst
  by_cases hc : conf.shardingEnabled ∧ conf.shardCount > 1
  · rw [if_pos hc] at hst
    obtain ⟨shards, hsh, hlen⟩ := hst
    subst hsh
    have hpos : 0 < Int.toNat conf.shardCount := by omega
    have hb : hashString key % Int.toNat conf.shardCount < shards.length := by
      rw [hlen]
      exact Nat.mod_lt _ hpos
    refine ⟨PoolStorage.sharded (shards.set (hashString key % Int.toNat conf.shardCount)
        (i :: shards.get ⟨hashString key % Int.toNat conf.shardCount, hb⟩)), ?_⟩
    rw [if_pos hc]
    show (if h : hashString key % Int.toNat conf.shardCount < shards.length then
        Except.ok (PoolStorage.sharded (shards.set (hashString key % Int.toNat conf.shardCount)
          (i :: shards.get ⟨hashString key % Int.toNat conf.shardCount, h⟩)))
      else Except.error (Err.simple "panic: index out of range")) = _
    rw [dif_pos hb]
  · rw [if_neg hc] at hst
    obtain ⟨l, hl⟩ := hst
    subst hl
    refine ⟨PoolStorage.nonsharded (i :: l), ?_⟩
    rw [if_neg hc]

theorem evictOldestCacheItem_fields (poolName : String) (s : MgrState) :
    (evictOldestCacheItem poolName s).pools = s.pools ∧
    (evictOldestCacheItem poolName s).poolConfig = s.poolConfig ∧
    (evictOldestCacheItem poolName s).metrics = s.metrics ∧
    (evictOldestCacheItem poolName s).nextId = s.nextId ∧
    (evictOldestCacheItem poolName s).resetCounter = s.resetCounter := by
  unfold evictOldestCacheItem
  split
  · split
    · exact ⟨rfl, rfl, rfl, rfl, rfl⟩
    · exact ⟨rfl, rfl, rfl, rfl, rfl⟩
  · exact ⟨rfl, rfl, rfl, rfl, rfl⟩

theorem addToCache_fields (poolName : String) (i : Nat) (s : MgrState) :
    (addToCache poolName i s).1.pools = s.pools ∧
    (addToCache poolName i s).1.poolConfig = s.poolConfig ∧
    (addToCache poolName i s).1.metrics = s.metrics ∧
    (addToCache poolName i s).1.nextId = s.nextId ∧
    (addToCache poolName i s).1.resetCounter = s.resetCounter := by
  unfold addToCache
  split
  · exact ⟨rfl, rfl, rfl, rfl, rfl⟩
  · split
    · split
      · have h := evictOldestCacheItem_fields poolName s
        exact ⟨h.1, h.2.1, h.2.2.1, h.2.2.2.1, h.2.2.2.2⟩
      · exact ⟨rfl, rfl, rfl, rfl, rfl⟩
    · exact ⟨rfl, rfl, rfl, rfl, rfl⟩

theorem addToCache_no_reset (poolName : String) (i j : Nat) (s : MgrState) :
    Event.reset j ∉ (addToCache poolName i s).2 := by
  unfold addToCache
  split
  · simp
  · split
    · split
      · simp
      · simp
    · simp

theorem AddPool_resetCounter (poolName : String) (conf : PoolConfiguration)
    (rands : List Nat) (s : MgrState) :
    (AddPool poolName conf rands s).1.resetCounter = s.resetCounter := by
  unfold AddPool
  split
  · rfl
  · rfl

theorem AddPool_cache (poolName : String) (conf : PoolConfiguration)
    (rands : List Nat) (s : MgrState) :
    (AddPool poolName conf rands s).1.cache = s.cache := by
  unfold AddPool
  split
  · rfl
  · rfl

theorem addToCache_cache_nodup (poolName : String) (i : Nat) (s : MgrState)
    (h : NodupKeys s.cache) : NodupKeys (addToCache poolName i s).1.cache := by
  unfold addToCache
  split
  · exact h
  · split
    · split
      · apply nodupKeys_storeA
        unfold evictOldestCacheItem
        split
        · split
          · exact nodupKeys_deleteA _ _ h
          · exact h
        · exact h
      · exact nodupKeys_storeA _ _ _ h
    · exact h

theorem AcquireInstance_resetCounter (poolName : String) (now : Int) (key : String)
    (s : MgrState) :
    (AcquireInstance poolName now key s).1.resetCounter = s.resetCounter := by
  unfold AcquireInstance
  split
  · rfl
  · split
    · rfl
    · split
      · rfl
      · split
        · rfl
        · rename_i conf hconf x hx storage hpool p hget
          dsimp only
          split
          · exact (addToCache_fields _ _ _).2.2.2.2
          · rfl

theorem AcquireInstance_cache_nodup (poolName : String) (now : Int) (key : String)
    (s : MgrState) (h : NodupKeys s.cache) :
    NodupKeys (AcquireInstance poolName now key s).1.cache := by
  unfold AcquireInstance
  split
  · exact h
  · split
    · exact h
    · split
      · exact h
      · split
        · exact h
        · dsimp only
          split
          · apply addToCache_cache_nodup
            exact h
          · exact h

theorem isOkResult_map {ε α β : Type} (f : α → β) (r : Except ε α) :
    isOkResult (r.map f) = isOkResult r := by
  cases r <;> rfl

theorem ReleaseInstance_resetCounter (poolName : String) (inst : Option Nat)
    (now : Int) (key : String) (s : MgrState) (hwf : WF s) :
    (ReleaseInstance poolName inst now key s).1.resetCounter =
      s.resetCounter +
        (if isOkResult (ReleaseInstance poolName inst now key s).2.1 then 1 else 0) := by
  unfold ReleaseInstance
  split
  · simp [isOkResult]
  · rename_i i
    dsimp only
    split
    · simp [isOkResult]
    · rename_i storage hpool
      split
      · simp [isOkResult]
      · rename_i conf hconf
        have hst : WFStorage conf storage := hwf poolName storage conf hpool hconf
        obtain ⟨st', hput⟩ := putInstanceToPool_ok poolName storage conf i key hst
        simp only [hput]
        split
        · exact ((addToCache_fields _ _ _).2.2.2.2).trans (by simp [isOkResult])
        · simp [isOkResult]

theorem ReleaseInstance_cache_nodup (poolName : String) (inst : Option Nat)
    (now : Int) (key : String) (s : MgrState) (h : NodupKeys s.cache) :
    NodupKeys (ReleaseInstance poolName inst now key s).1.cache := by
  unfold ReleaseInstance
  split
  · exact h
  · dsimp only
    split
    · exact h
    · split
      · exact h
      · split
        · exact h
        · dsimp only
          split
          · exact addToCache_cache_nodup _ _ _ h
          · exact h

theorem ReleaseInstance_trace (poolName : String) (i : Nat) (now : Int) (key : String)
    (s : MgrState) (hwf : WF s)
    (hok : isOkResult (ReleaseInstance poolName (some i) now key s).2.1 = true) :
    ∃ rest, (ReleaseInstance poolName (some i) now key s).2.2 = Event.reset i :: rest ∧
      Event.reset i ∉ rest ∧ Event.poolInsert i ∈ rest := by
  unfold ReleaseInstance at hok ⊢
  dsimp only at hok ⊢
  split at hok
  · simp [isOkResult] at hok
  · rename_i storage hpool
    split at hok
    · simp [isOkResult] at hok
    · rename_i conf hconf
      have hst : WFStorage conf storage := hwf poolName storage conf hpool hconf
      obtain ⟨st', hput⟩ := putInstanceToPool_ok poolName storage conf i key hst
      simp only [hput]
      by_cases hec : conf.enableCaching
      · simp only [if_pos hec]
        refine ⟨_, rfl, ?_, ?_⟩
        · intro hmem
          simp at hmem
          exact addToCache_no_reset _ _ _ _ hmem
        · simp
      · simp only [if_neg hec]
        refine ⟨_, rfl, ?_, ?_⟩
        · simp
        · simp

theorem AddPool_WF (poolName : String) (conf : PoolConfiguration) (rands : List Nat)
    (s : MgrState) (hwf : WF s) : WF (AddPool poolName conf rands s).1 := by
  unfold AddPool
  split
  · exact hwf
  · dsimp only
    have hst0 : WFStorage conf (if conf.shardingEnabled ∧ conf.shardCount > 1 then
        PoolStorage.sharded (List.replicate (Int.toNat conf.shardCount) [])
      else PoolStorage.nonsharded []) := by
      unfold WFStorage
      by_cases hc : conf.shardingEnabled ∧ conf.shardCount > 1
      · rw [if_pos hc, if_pos hc]
        exact ⟨_, rfl, List.length_replicate _ _⟩
      · rw [if_neg hc, if_neg hc]
        exact ⟨_, rfl⟩
    have h1 := WFmaps_store_both s.pools s.poolConfig hwf poolName _ conf hst0
    have hstF := prepopulate_shape conf rands (Int.toNat conf.initialSize) _ s.nextId hst0
    have h2 := WFmaps_store _ _ h1 poolName _ conf
      (by rw [alookup_storeA]; simp) hstF
    exact h2

theorem AcquireInstance_WF (poolName : String) (now : Int) (key : String)
    (s : MgrState) (hwf : WF s) : WF (AcquireInstance poolName now key s).1 := by
  unfold AcquireInstance
  split
  · exact hwf
  · rename_i conf hconf
    split
    · exact fun name st c h1 h2 => hwf name st c h1 h2
    · split
      · exact hwf
      · rename_i storage hpool
        rcases hres : getInstanceFromPool poolName storage conf key s.nextId with e | p
        · simp only [hres]
          exact hwf
        · obtain ⟨j, storage2, nextId2⟩ := p
          simp only [hres]
          have hshape : WFStorage conf storage2 :=
            getInstanceFromPool_shape poolName storage conf key s.nextId j storage2 nextId2
              hres (hwf poolName storage conf hpool hconf)
          have hw2 : WFmaps (storeA poolName storage2 s.pools) s.poolConfig :=
            WFmaps_store _ _ hwf poolName storage2 conf hconf hshape
          intro name st c h1 h2
          by_cases hec : conf.enableCaching
          · rw [if_pos hec] at h1 h2
            rw [(addToCache_fields poolName j _).1] at h1
            rw [(addToCache_fields poolName j _).2.1] at h2
            exact hw2 name st c h1 h2
          · rw [if_neg hec] at h1 h2
            exact hw2 name st c h1 h2

theorem ReleaseInstance_WF (poolName : String) (inst : Option Nat) (now : Int)
    (key : String) (s : MgrState) (hwf : WF s) :
    WF (ReleaseInstance poolName inst now key s).1 := by
  unfold ReleaseInstance
  split
  · exact hwf
  · rename_i i
    dsimp only
    split
    · exact fun name st c h1 h2 => hwf name st c h1 h2
    · rename_i storage hpool
      split
      · exact fun name st c h1 h2 => hwf name st c h1 h2
      · rename_i conf hconf
        rcases hput : putInstanceToPool poolName storage conf i key with e | storage2
        · simp only [hput]
          exact fun name st c h1 h2 => hwf name st c h1 h2
        · simp only [hput]
          have hshape : WFStorage conf storage2 :=
            putInstanceToPool_shape poolName storage conf i key storage2 hput
              (hwf poolName storage conf hpool hconf)
          have hw2 : WFmaps (storeA poolName storage2 s.pools) s.poolConfig :=
            WFmaps_store _ _ hwf poolName storage2 conf hconf hshape
          intro name st c h1 h2
          by_cases hec : conf.enableCaching
          · rw [if_pos hec] at h1 h2
            rw [(addToCache_fields poolName i _).1] at h1
            rw [(addToCache_fields poolName i _).2.1] at h2
            exact hw2 name st c h1 h2
          · rw [if_neg hec] at h1 h2
            exact hw2 name st c h1 h2

theorem step_addPool_eq (n : String) (conf : PoolConfiguration) (rands : List Nat)
    (s : MgrState) :
    step (Op.addPool n conf rands) s =
      ((AddPool n conf rands s).1,
       ⟨(AddPool n conf rands s).2.1.map (fun _ => none), (AddPool n conf rands s).2.2⟩) := rfl

theorem step_acquire_eq (n : String) (now : Int) (key : String) (s : MgrState) :
    step (Op.acquire n now key) s =
      ((AcquireInstance n now key s).1,
       ⟨(AcquireInstance n now key s).2.1.map some, (AcquireInstance n now key s).2.2⟩) := rfl

theorem step_release_eq (n : String) (inst : Option Nat) (now : Int) (key : String)
    (s : MgrState) :
    step (Op.release n inst now key) s =
      ((ReleaseInstance n inst now key s).1,
       ⟨(ReleaseInstance n inst now key s).2.1.map (fun _ => none),
        (ReleaseInstance n inst now key s).2.2⟩) := rfl

theorem run_cons (op : Op) (t : List Op) (s : MgrState) :
    run (op :: t) s =
      ((run t (step op s).1).1, (step op s).2 :: (run t (step op s).1).2) := rfl

theorem step_WF (op : Op) (s : MgrState) (hwf : WF s) : WF (step op s).1 := by
  cases op with
  | addPool n conf rands =>
    rw [step_addPool_eq]
    exact AddPool_WF n conf rands s hwf
  | acquire n now key =>
    rw [step_acquire_eq]
    exact AcquireInstance_WF n now key s hwf
  | release n inst now key =>
    rw [step_release_eq]
    exact ReleaseInstance_WF n inst now key s hwf

theorem step_resetCounter (op : Op) (s : MgrState) (hwf : WF s) :
    (step op s).1.resetCounter =
      s.resetCounter +
        (if isReleaseOp op && isOkResult (step op s).2.result then 1 else 0) := by
  cases op with
  | addPool n conf rands =>
    rw [step_addPool_eq]
    simp [isReleaseOp, AddPool_resetCounter]
  | acquire n now key =>
    rw [step_acquire_eq]
    simp [isReleaseOp, AcquireInstance_resetCounter]
  | release n inst now key =>
    rw [step_release_eq]
    simp only [isReleaseOp, Bool.true_and, isOkResult_map]
    exact ReleaseInstance_resetCounter n inst now key s hwf

theorem step_cache_nodup (op : Op) (s : MgrState) (h : NodupKeys s.cache) :
    NodupKeys (step op s).1.cache := by
  cases op with
  | addPool n conf rands =>
    rw [step_addPool_eq, AddPool_cache]
    exact h
  | acquire n now key =>
    rw [step_acquire_eq]
    exact AcquireInstance_cache_nodup n now key s h
  | release n inst now key =>
    rw [step_release_eq]
    exact ReleaseInstance_cache_nodup n inst now key s h

theorem countSuccessfulReleases_cons (op : Op) (ops : List Op) (out : StepOut)
    (outs : List StepOut) :
    countSuccessfulReleases (op :: ops) (out :: outs) =
      (if isReleaseOp op && isOkResult out.result then 1 else 0) +
        countSuccessfulReleases ops outs := rfl

theorem run_WF_counter (ops : List Op) (s : MgrState) (hwf : WF s) :
    WF (run ops s).1 ∧
    (run ops s).1.resetCounter =
      s.resetCounter + countSuccessfulReleases ops (run ops s).2 := by
  induction ops generalizing s with
  | nil => exact ⟨hwf, by simp [run, countSuccessfulReleases]⟩
  | cons op t ih =>
    have hstep := step_WF op s hwf
    have hcnt := step_resetCounter op s hwf
    have ihh := ih (step op s).1 hstep
    rw [run_cons]
    refine ⟨ihh.1, ?_⟩
    show (run t (step op s).1).1.resetCounter = _
    rw [ihh.2, hcnt, countSuccessfulReleases_cons]
    omega

theorem run_cache_nodup (ops : List Op) (s : MgrState) (h : NodupKeys s.cache) :
    NodupKeys (run ops s).1.cache := by
  induction ops generalizing s with
  | nil => exact h
  | cons op t ih =>
    rw [run_cons]
    exact ih (step op s).1 (step_cache_nodup op s h)

theorem run_release_trace (ops : List Op) (s : MgrState) (hwf : WF s) :
    ∀ (idx : Nat) (poolName : String) (i : Nat) (now : Int) (key : String) (out : StepOut),
      ops.get? idx = some (Op.release poolName (some i) now key) →
      (run ops s).2.get? idx = some out →
      isOkResult out.result = true →
      ∃ rest, out.events = Event.reset i :: rest ∧ Event.reset i ∉ rest ∧
        Event.poolInsert i ∈ rest := by
  induction ops generalizing s with
  | nil =>
    intro idx _ _ _ _ _ hop
    simp at hop
  | cons op t ih =>
    intro idx poolName i now key out hop hout hok
    cases idx with
    | zero =>
      rw [List.get?_cons_zero] at hop
      cases hop
      rw [run_cons, List.get?_cons_zero] at hout
      cases hout
      rw [step_release_eq] at hok ⊢
      simp only [isOkResult_map] at hok
      exact ReleaseInstance_trace poolName i now key s hwf hok
    | succ m =>
      rw [List.get?_cons_succ] at hop
      rw [run_cons, List.get?_cons_succ] at hout
      exact ih (step op s).1 (step_WF op s hwf) m poolName i now key out hop hout hok

/-- Claim C3: over every operation sequence from the initial manager state,
the counting poolable type's reset counter equals the number of successful
ReleaseInstance operations (each successful release calls Reset exactly
once, failed releases and acquires never call it), and every successful
release's event trace starts with that one Reset, strictly before the
instance is re-inserted into the pool (and cache). -/
theorem release_resets_exactly_once (ops : List Op) :
    (run ops initState).1.resetCounter =
      countSuccessfulReleases ops (run ops initState).2 ∧
    (∀ (idx : Nat) (poolName : String) (i : Nat) (now : Int) (key : String) (out : StepOut),
      ops.get? idx = some (Op.release poolName (some i) now key) →
      (run ops initState).2.get? idx = some out →
      isOkResult out.result = true →
      ∃ rest, out.events = Event.reset i :: rest ∧ Event.reset i ∉ rest ∧
        Event.poolInsert i ∈ rest) := by
  refine ⟨?_, run_release_trace ops initState WF_initState⟩
  have h := (run_WF_counter ops initState WF_initState).2
  rw [show initState.resetCounter = 0 from rfl] at h
  simpa using h

/-- Witness for the release/reset theorem at the concrete caching run: two
successful releases give reset counter 2, and the first release's trace is
Reset first, re-insertions after. -/
theorem release_resets_exactly_once_witness :
    (run cacheHitReleaseOps initState).1.resetCounter = 2 ∧
    ∃ rest,
      (((run cacheHitReleaseOps initState).2.get? 3).getD ⟨Except.ok none, []⟩).events =
        Event.reset 0 :: rest ∧ Event.reset 0 ∉ rest ∧ Event.poolInsert 0 ∈ rest := by
  have h := release_resets_exactly_once cacheHitReleaseOps
  have hget : (run cacheHitReleaseOps initState).2.get? 3 =
      some ⟨Except.ok none, [Event.reset 0, Event.onReset 0, Event.poolInsert 0,
        Event.cacheInsert 0, Event.onPut]⟩ := by decide
  refine ⟨?_, ?_⟩
  · rw [h.1]
    decide
  · rw [hget]
    exact h.2 3 "p" 0 2 "k" _ rfl hget (by decide)

/-- Claim C10: GetPoolSize counts the cache entries stored under the pool
name (not the free-list contents); since the cache is keyed solely by the
pool name, in every state reachable from the initial state that count is at
most 1 — however many instances AddPool pre-populated — and it is the same
count getNonShardedPoolSize returns and getCurrentPoolSize (the
auto-tuner's current_size) uses for a non-sharded pool. -/
theorem getPoolSize_counts_cache (ops : List Op) (poolName : String) :
    GetPoolSize poolName (run ops initState).1 =
      countKey poolName (run ops initState).1.cache ∧
    GetPoolSize poolName (run ops initState).1 ≤ 1 ∧
    getNonShardedPoolSize poolName (run ops initState).1 =
      GetPoolSize poolName (run ops initState).1 ∧
    (∀ freeList, getCurrentPoolSize poolName (PoolStorage.nonsharded freeList)
        (run ops initState).1 = GetPoolSize poolName (run ops initState).1) := by
  refine ⟨rfl, ?_, rfl, fun _ => rfl⟩
  refine countKey_le_one_of_nodup _ _ (run_cache_nodup ops initState ?_)
  show NodupKeys ([] : List (String × GoVal))
  simp [NodupKeys]
